import Mathlib

/-!
Verification of the answer-span extraction logic of the
`213-bert-question-answering` notebook.

The notebook's own logic is the span decoder: given two per-token score
sequences produced by an external inference engine it computes
`start_index = argmax(start_scores)` and `end_index = argmax(end_scores) + 1`
and slices the token sequence with Python semantics.  Scores are modelled as
rationals (finite floats compared by value; NaN is out of scope per the
surrounding design notes), the token sequence as a list of integer token ids.
A raised exception (numpy's `ValueError` on `argmax` of an empty array) is
modelled as `none`.
-/

namespace BertQA

/-- Running first-occurrence argmax scan: `best` is the largest value seen so
far, `bestIdx` its index, `i` the index of the head of the remaining list.
The best index is replaced only on a strictly larger value, so the first
occurrence of the maximum wins — the documented tie-break of both
`numpy.ndarray.argmax` and `torch.argmax`. -/
def argmaxFrom (best : ℚ) (bestIdx i : Nat) : List ℚ → Nat
  | [] => bestIdx
  | x :: rest =>
      if best < x then argmaxFrom x i (i + 1) rest
      else argmaxFrom best bestIdx (i + 1) rest

/-- `ndarray.argmax()` as called in `answer_question`: index of the first
occurrence of the maximum value; `none` models the `ValueError` numpy raises
on an empty array. -/
def np_argmax : List ℚ → Option Nat
  | [] => none
  | x :: rest => some (argmaxFrom x 0 1 rest)

/-- Running scan of `torch.argmax`, kept as a separate definition because the
Step 5 cell calls a different library than `answer_question` does. -/
def torch_argmaxFrom (best : ℚ) (bestIdx i : Nat) : List ℚ → Nat
  | [] => bestIdx
  | x :: rest =>
      if best < x then torch_argmaxFrom x i (i + 1) rest
      else torch_argmaxFrom best bestIdx (i + 1) rest

/-- `torch.argmax` as called in the Step 5 cell: index of the first occurrence
of the maximum value; `none` models the error raised on an empty tensor. -/
def torch_argmax : List ℚ → Option Nat
  | [] => none
  | x :: rest => some (torch_argmaxFrom x 0 1 rest)

/-- Python slicing `l[s:e]` for non-negative bounds: empty when `e ≤ s`,
clamped to the end of the list when `e` exceeds its length, never an error. -/
def pySlice {α : Type} (l : List α) (s e : Nat) : List α :=
  (l.drop s).take (e - s)

/-- The span computation inside `answer_question`:
`start_index = start_index.argmax(); end_index = end_index.argmax() + 1`. -/
def answer_question_span (start_scores end_scores : List ℚ) :
    Option (Nat × Nat) :=
  match np_argmax start_scores, np_argmax end_scores with
  | some s, some e => some (s, e + 1)
  | _, _ => none

/-- The token selection inside `answer_question`:
`answer_tokens = inputs["input_ids"][0][start_index:end_index]`. -/
def answer_question_tokens (input_ids : List Int)
    (start_scores end_scores : List ℚ) : Option (List Int) :=
  match answer_question_span start_scores end_scores with
  | some (s, e) => some (pySlice input_ids s e)
  | none => none

/-- The inline Step 5 cell:
`start_index = torch.argmax(start_scores); end_index = torch.argmax(end_scores) + 1`. -/
def step5_span (start_scores end_scores : List ℚ) : Option (Nat × Nat) :=
  match torch_argmax start_scores, torch_argmax end_scores with
  | some s, some e => some (s, e + 1)
  | _, _ => none

/-- The inline Step 6 cell:
`answer_tokens = inputs["input_ids"][0][start_index:end_index]`. -/
def step6_answer_tokens (input_ids : List Int)
    (start_scores end_scores : List ℚ) : Option (List Int) :=
  match step5_span start_scores end_scores with
  | some (s, e) => some (pySlice input_ids s e)
  | none => none

/-- `i` is the index of the first occurrence of the maximum value of `xs`:
it is in range, no element exceeds `xs[i]`, and every earlier element is
strictly smaller. -/
def IsFirstArgmax (xs : List ℚ) (i : Nat) : Prop :=
  ∃ h : i < xs.length,
    (∀ j (hj : j < xs.length), xs.get ⟨j, hj⟩ ≤ xs.get ⟨i, h⟩) ∧
    ∀ j, j < i → ∀ hj : j < xs.length, xs.get ⟨j, hj⟩ < xs.get ⟨i, h⟩

example : np_argmax [(1:ℚ)/10, 9/10, 2/10] = some 1 := by
  norm_num [np_argmax, argmaxFrom]
example : answer_question_span [(1:ℚ)/10, 9/10, 2/10] [(5:ℚ)/100, 1/10, 8/10]
    = some (1, 3) := by
  norm_num [answer_question_span, np_argmax, argmaxFrom]
example : answer_question_span [(1:ℚ)/10, 9/10] [(9:ℚ)/10, 1/10]
    = some (1, 1) := by
  norm_num [answer_question_span, np_argmax, argmaxFrom]
example : np_argmax [(2:ℚ), 5, 5, 1] = some 1 := by decide
example : pySlice [(7:ℤ), 8, 9] 1 1 = [] := by decide
example : pySlice [(7:ℤ), 8, 9] 1 9 = [8, 9] := by decide

/-- Invariant of the running scan: either no element of the remaining list
beats the current best (and its index is returned), or the scan returns
`i + k` for the first strictly-best remaining position `k`. -/
lemma argmaxFrom_spec (l : List ℚ) : ∀ (best : ℚ) (bi i : Nat),
    (argmaxFrom best bi i l = bi ∧ ∀ k (hk : k < l.length), l.get ⟨k, hk⟩ ≤ best)
    ∨ (∃ k, ∃ hk : k < l.length, argmaxFrom best bi i l = i + k
        ∧ best < l.get ⟨k, hk⟩
        ∧ (∀ m (hm : m < l.length), l.get ⟨m, hm⟩ ≤ l.get ⟨k, hk⟩)
        ∧ ∀ j, j < k → ∀ hj : j < l.length, l.get ⟨j, hj⟩ < l.get ⟨k, hk⟩) := by
  induction l with
  | nil =>
      intro best bi i
      left
      exact ⟨rfl, fun k hk => absurd hk (by simp)⟩
  | cons x rest ih =>
      intro best bi i
      by_cases hx : best < x
      · have hrw : argmaxFrom best bi i (x :: rest) = argmaxFrom x i (i + 1) rest := by
          simp only [argmaxFrom, if_pos hx]
        rcases ih x i (i + 1) with ⟨hr, hall⟩ | ⟨k, hk, hr, hbest, hmax, hfirst⟩
        · right
          refine ⟨0, by simp, ?_, ?_, ?_, ?_⟩
          · rw [hrw, hr]; omega
          · simpa using hx
          · intro m hm
            match m with
            | 0 => simp
            | Nat.succ m' =>
                simpa using hall m' (by simpa using hm)
          · intro j hj
            exact absurd hj (Nat.not_lt_zero j)
        · right
          refine ⟨k + 1, by simpa using Nat.succ_lt_succ hk, ?_, ?_, ?_, ?_⟩
          · rw [hrw, hr]; omega
          · simpa using lt_trans hx hbest
          · intro m hm
            match m with
            | 0 => simpa using le_of_lt hbest
            | Nat.succ m' =>
                simpa using hmax m' (by simpa using hm)
          · intro j hj hj'
            match j with
            | 0 => simpa using hbest
            | Nat.succ j' =>
                simpa using hfirst j' (Nat.lt_of_succ_lt_succ hj)
                  (by simpa using hj')
      · have hxle : x ≤ best := le_of_not_lt hx
        have hrw : argmaxFrom best bi i (x :: rest) = argmaxFrom best bi (i + 1) rest := by
          simp only [argmaxFrom, if_neg hx]
        rcases ih best bi (i + 1) with ⟨hr, hall⟩ | ⟨k, hk, hr, hbest, hmax, hfirst⟩
        · left
          refine ⟨by rw [hrw, hr], ?_⟩
          intro m hm
          match m with
          | 0 => simpa using hxle
          | Nat.succ m' =>
              simpa using hall m' (by simpa using hm)
        · right
          refine ⟨k + 1, by simpa using Nat.succ_lt_succ hk, ?_, ?_, ?_, ?_⟩
          · rw [hrw, hr]; omega
          · simpa using hbest
          · intro m hm
            match m with
            | 0 => simpa using le_of_lt (lt_of_le_of_lt hxle hbest)
            | Nat.succ m' =>
                simpa using hmax m' (by simpa using hm)
          · intro j hj hj'
            match j with
            | 0 => simpa using lt_of_le_of_lt hxle hbest
            | Nat.succ j' =>
                simpa using hfirst j' (Nat.lt_of_succ_lt_succ hj)
                  (by simpa using hj')

/-- On a non-empty list, `np_argmax` returns the index of the first
occurrence of the maximum value. -/
lemma np_argmax_isFirstArgmax (xs : List ℚ) (hne : xs ≠ []) :
    ∃ i, np_argmax xs = some i ∧ IsFirstArgmax xs i := by
  match xs with
  | [] => exact absurd rfl hne
  | x :: rest =>
      rcases argmaxFrom_spec rest x 0 1 with ⟨hr, hall⟩ | ⟨k, hk, hr, hbest, hmax, hfirst⟩
      · refine ⟨0, by simp [np_argmax, hr], by simp, ?_, ?_⟩
        · intro j hj
          match j with
          | 0 => simp
          | Nat.succ j' =>
              simpa using hall j' (by simpa using hj)
        · intro j hj
          exact absurd hj (Nat.not_lt_zero j)
      · refine ⟨1 + k, by simp [np_argmax, hr], ?_⟩
        have hik : 1 + k = k + 1 := Nat.add_comm 1 k
        refine ⟨by simpa [hik] using Nat.succ_lt_succ hk, ?_, ?_⟩
        · intro j hj
          match j with
          | 0 => simp [hik]; exact le_of_lt hbest
          | Nat.succ j' =>
              simpa [hik] using hmax j' (by simpa using hj)
        · intro j hj hj'
          match j with
          | 0 => simp [hik]; exact hbest
          | Nat.succ j' =>
              have : j' < k := by omega
              simpa [hik] using hfirst j' this (by simpa using hj')

/-- First-argmax indices are unique. -/
lemma isFirstArgmax_unique {xs : List ℚ} {i i' : Nat}
    (h : IsFirstArgmax xs i) (h' : IsFirstArgmax xs i') : i = i' := by
  rcases h with ⟨hi, hmax, hfirst⟩
  rcases h' with ⟨hi', hmax', hfirst'⟩
  rcases Nat.lt_trichotomy i i' with hlt | heq | hgt
  · have h1 := hfirst' i hlt hi
    have h2 := hmax i' hi'
    exact absurd (lt_of_le_of_lt h2 h1) (lt_irrefl _)
  · exact heq
  · have h1 := hfirst i' hgt hi'
    have h2 := hmax' i hi
    exact absurd (lt_of_le_of_lt h2 h1) (lt_irrefl _)

/-- `np_argmax` fails exactly on the empty array. -/
lemma np_argmax_eq_none_iff (xs : List ℚ) : np_argmax xs = none ↔ xs = [] := by
  cases xs <;> simp [np_argmax]

/-- A returned argmax index is in range. -/
lemma np_argmax_lt_length {xs : List ℚ} {i : Nat} (h : np_argmax xs = some i) :
    i < xs.length := by
  have hne : xs ≠ [] := by
    intro hnil
    rw [hnil] at h
    simp [np_argmax] at h
  rcases np_argmax_isFirstArgmax xs hne with ⟨j, hj, hfa⟩
  rcases hfa with ⟨hjlt, -⟩
  have : i = j := Option.some_injective _ (h.symm.trans hj)
  rw [this]
  exact hjlt

/-- The two scans are the same function. -/
lemma torch_argmaxFrom_eq (l : List ℚ) : ∀ (best : ℚ) (bi i : Nat),
    torch_argmaxFrom best bi i l = argmaxFrom best bi i l := by
  induction l with
  | nil => intro best bi i; rfl
  | cons x rest ih =>
      intro best bi i
      simp only [torch_argmaxFrom, argmaxFrom]
      by_cases hx : best < x
      · rw [if_pos hx, if_pos hx, ih]
      · rw [if_neg hx, if_neg hx, ih]

/-- `torch.argmax` and `ndarray.argmax` agree: both take the first occurrence
of the maximum. -/
lemma torch_argmax_eq_np (xs : List ℚ) : torch_argmax xs = np_argmax xs := by
  cases xs with
  | nil => rfl
  | cons x rest => simp [torch_argmax, np_argmax, torch_argmaxFrom_eq]

/-- C1: for every pair of non-empty, equal-length score sequences,
`answer_question` returns `start_index` equal to the index of the first
occurrence of the maximum of `start_scores` and `end_index` equal to the
index of the first occurrence of the maximum of `end_scores` plus one. -/
theorem answer_question_span_first_argmax (start_scores end_scores : List ℚ)
    (hs : start_scores ≠ []) (he : end_scores ≠ [])
    (_hlen : start_scores.length = end_scores.length) :
    ∃ s e, answer_question_span start_scores end_scores = some (s, e + 1) ∧
      IsFirstArgmax start_scores s ∧ IsFirstArgmax end_scores e := by
  rcases np_argmax_isFirstArgmax start_scores hs with ⟨s, hsv, hsf⟩
  rcases np_argmax_isFirstArgmax end_scores he with ⟨e, hev, hef⟩
  exact ⟨s, e, by simp [answer_question_span, hsv, hev], hsf, hef⟩

/-- Witness for C1 at a concrete input. -/
theorem answer_question_span_first_argmax_witness :
    ∃ s e, answer_question_span [(1:ℚ), 3, 2] [(1:ℚ), 2, 3] = some (s, e + 1) ∧
      IsFirstArgmax [(1:ℚ), 3, 2] s ∧ IsFirstArgmax [(1:ℚ), 2, 3] e :=
  answer_question_span_first_argmax [(1:ℚ), 3, 2] [(1:ℚ), 2, 3]
    (by simp) (by simp) rfl

/-- C2 counterexample: the code performs no validation; on score sequences of
unequal length `answer_question` succeeds with the two independent argmax
results instead of raising an `InvalidInputError` (which the notebook never
defines). -/
theorem answer_question_no_error_on_mismatch :
    ([(1:ℚ)]).length ≠ ([(1:ℚ), 2]).length ∧
    answer_question_span [(1:ℚ)] [(1:ℚ), 2] = some (0, 2) := by
  refine ⟨by decide, ?_⟩
  norm_num [answer_question_span, np_argmax, argmaxFrom]

/-- C2 amended: extraction fails exactly when one of the two score sequences
is empty (numpy's `argmax` raising on an empty array, modelled as `none`);
sequences of unequal length are not rejected. -/
theorem answer_question_span_none_iff (start_scores end_scores : List ℚ) :
    answer_question_span start_scores end_scores = none ↔
      start_scores = [] ∨ end_scores = [] := by
  cases start_scores <;> cases end_scores <;>
    simp [answer_question_span, np_argmax]

/-- C3: on `start_scores = [0.1, 0.9]`, `end_scores = [0.9, 0.1]` the
extractor returns `start_index = 1`, `end_index = 1` with no error, and the
selected token slice is empty for every token sequence. -/
theorem answer_question_pathological :
    answer_question_span [(1:ℚ)/10, 9/10] [(9:ℚ)/10, 1/10] = some (1, 1) ∧
    ∀ tokens : List Int,
      answer_question_tokens tokens [(1:ℚ)/10, 9/10] [(9:ℚ)/10, 1/10]
        = some [] := by
  have hspan : answer_question_span [(1:ℚ)/10, 9/10] [(9:ℚ)/10, 1/10]
      = some (1, 1) := by
    norm_num [answer_question_span, np_argmax, argmaxFrom]
  refine ⟨hspan, fun tokens => ?_⟩
  unfold answer_question_tokens
  rw [hspan]
  simp [pySlice]

/-- C4 counterexample: the claimed invariant `start_index < end_index` fails
on the non-empty equal-length pair `[0.1, 0.9]`, `[0.9, 0.1]`, where the
extractor returns the empty span `(1, 1)`. -/
theorem span_invariant_cex :
    ([(1:ℚ)/10, 9/10] ≠ [] ∧ [(9:ℚ)/10, 1/10] ≠ [] ∧
      ([(1:ℚ)/10, 9/10]).length = ([(9:ℚ)/10, 1/10]).length) ∧
    answer_question_span [(1:ℚ)/10, 9/10] [(9:ℚ)/10, 1/10] = some (1, 1) ∧
    ¬ (1 < 1) := by
  refine ⟨⟨by simp, by simp, rfl⟩, ?_, by omega⟩
  norm_num [answer_question_span, np_argmax, argmaxFrom]

/-- C4 amended: every produced span satisfies
`start_index < length start_scores` and `1 ≤ end_index ≤ length end_scores`;
`start_index < end_index` is not guaranteed. -/
theorem answer_question_span_bounds (start_scores end_scores : List ℚ)
    (s e : Nat) (h : answer_question_span start_scores end_scores = some (s, e)) :
    s < start_scores.length ∧ 1 ≤ e ∧ e ≤ end_scores.length := by
  unfold answer_question_span at h
  cases hss : np_argmax start_scores with
  | none => rw [hss] at h; simp at h
  | some s' =>
      cases hes : np_argmax end_scores with
      | none => rw [hss, hes] at h; simp at h
      | some e' =>
          rw [hss, hes] at h
          simp at h
          obtain ⟨h1, h2⟩ := h
          have hs' := np_argmax_lt_length hss
          have he' := np_argmax_lt_length hes
          omega

/-- Witness for the amended C4 at a concrete input. -/
theorem answer_question_span_bounds_witness :
    1 < ([(1:ℚ), 2]).length ∧ 1 ≤ 2 ∧ 2 ≤ ([(3:ℚ), 4]).length :=
  answer_question_span_bounds [(1:ℚ), 2] [(3:ℚ), 4] 1 2 (by decide)

/-- C5: for every non-empty `end_scores`, the computed
`end_index = argmax(end_scores) + 1` satisfies `1 ≤ end_index ≤ L`. -/
theorem end_index_bounds (end_scores : List ℚ) (hne : end_scores ≠ []) :
    ∃ i, np_argmax end_scores = some i ∧
      1 ≤ i + 1 ∧ i + 1 ≤ end_scores.length := by
  rcases np_argmax_isFirstArgmax end_scores hne with ⟨i, hi, hlt, -⟩
  exact ⟨i, hi, by omega, by omega⟩

/-- Witness for C5 at a concrete input. -/
theorem end_index_bounds_witness :
    ∃ i, np_argmax [(1:ℚ), 2] = some i ∧
      1 ≤ i + 1 ∧ i + 1 ≤ ([(1:ℚ), 2]).length :=
  end_index_bounds [(1:ℚ), 2] (by simp)

/-- C6: the first-occurrence argmax is invariant under any rearrangement of
the scores that only moves elements strictly below the maximum, i.e. under
any permutation `σ` of the positions that fixes every position holding the
maximum value: only the position of the maximum determines `start_index`. -/
theorem np_argmax_perm_invariant (xs : List ℚ) (σ : Equiv.Perm (Fin xs.length))
    (hfix : ∀ j : Fin xs.length,
      (∀ k : Fin xs.length, xs.get k ≤ xs.get j) → σ j = j) :
    np_argmax (List.ofFn fun j => xs.get (σ j)) = np_argmax xs := by
  by_cases hne : xs = []
  · subst hne
    have h : (List.ofFn fun j => ([] : List ℚ).get (σ j)) = [] := by
      apply List.eq_nil_of_length_eq_zero
      simp
    rw [h]
  · set ys := List.ofFn (fun j => xs.get (σ j)) with hys
    have hlen : ys.length = xs.length := by simp [hys]
    have hlen0 : xs.length ≠ 0 := fun h0 => hne (List.eq_nil_of_length_eq_zero h0)
    have hyne : ys ≠ [] := by
      intro h
      apply hlen0
      rw [← hlen, h]
      rfl
    rcases np_argmax_isFirstArgmax xs hne with ⟨i, hi, hilt, hmax, hfirst⟩
    have hget : ∀ (j : Nat) (hj : j < ys.length) (hj' : j < xs.length),
        ys.get ⟨j, hj⟩ = xs.get (σ ⟨j, hj'⟩) := by
      intro j hj hj'
      simp [hys, List.get_ofFn]
    have hσi : σ ⟨i, hilt⟩ = ⟨i, hilt⟩ := by
      apply hfix
      intro k
      exact hmax k.1 k.2
    have hiy : i < ys.length := by rw [hlen]; exact hilt
    have hfa2 : IsFirstArgmax ys i := by
      refine ⟨hiy, ?_, ?_⟩
      · intro j hj
        have hj' : j < xs.length := by rw [← hlen]; exact hj
        rw [hget j hj hj', hget i hiy hilt, hσi]
        exact hmax (σ ⟨j, hj'⟩).1 (σ ⟨j, hj'⟩).2
      · intro j hj hjy
        have hj' : j < xs.length := by rw [← hlen]; exact hjy
        rw [hget j hjy hj', hget i hiy hilt, hσi]
        set a := σ ⟨j, hj'⟩ with ha
        by_cases hamax : ∀ k : Fin xs.length, xs.get k ≤ xs.get a
        · exfalso
          have h1 : σ a = a := hfix a hamax
          rw [ha] at h1
          have h2 : σ ⟨j, hj'⟩ = ⟨j, hj'⟩ := σ.injective h1
          have h3 := hamax ⟨i, hilt⟩
          rw [ha, h2] at h3
          have h4 := hfirst j hj hj'
          exact absurd (lt_of_le_of_lt h3 h4) (lt_irrefl _)
        · push_neg at hamax
          obtain ⟨k, hk⟩ := hamax
          exact lt_of_lt_of_le hk (hmax k.1 k.2)
    rcases np_argmax_isFirstArgmax ys hyne with ⟨i', hi', hfa1⟩
    have hii : i' = i := isFirstArgmax_unique hfa1 hfa2
    rw [hi', hii, hi]

/-- Witness for C6: swapping the two sub-maximal scores at positions 0 and 2
of `[1, 3, 2, 2]` leaves the argmax unchanged. -/
theorem np_argmax_perm_invariant_witness :
    np_argmax (List.ofFn fun j => ([(1:ℚ), 3, 2, 2]).get
        (Equiv.swap ⟨0, by simp⟩ ⟨2, by simp⟩ j))
      = np_argmax [(1:ℚ), 3, 2, 2] :=
  np_argmax_perm_invariant [(1:ℚ), 3, 2, 2]
    (Equiv.swap ⟨0, by simp⟩ ⟨2, by simp⟩) (by decide)

/-- C7: the extractor is deterministic — equal score inputs give equal spans;
as a Lean function it is pure by construction. -/
theorem answer_question_span_deterministic
    (ss₁ es₁ ss₂ es₂ : List ℚ) (hs : ss₁ = ss₂) (he : es₁ = es₂) :
    answer_question_span ss₁ es₁ = answer_question_span ss₂ es₂ := by
  rw [hs, he]

/-- Witness for C7 at a concrete input. -/
theorem answer_question_span_deterministic_witness :
    answer_question_span [(1:ℚ), 2] [(3:ℚ)] = answer_question_span [(1:ℚ), 2] [(3:ℚ)] :=
  answer_question_span_deterministic [(1:ℚ), 2] [(3:ℚ)] [(1:ℚ), 2] [(3:ℚ)] rfl rfl

/-- C8: on `start_scores = [0.1, 0.9, 0.2]` and `end_scores = [0.05, 0.1, 0.8]`
the extractor returns `start_index = 1` and `end_index = 3`. -/
theorem boundary_scenario :
    answer_question_span [(1:ℚ)/10, 9/10, 2/10] [(5:ℚ)/100, 1/10, 8/10]
      = some (1, 3) := by
  norm_num [answer_question_span, np_argmax, argmaxFrom]

/-- C9: Python slicing of the answer tokens is total: it yields the empty
list when `end_index ≤ start_index`, clamps to the end of the token sequence
when `end_index` exceeds its length, and never fails. -/
theorem pySlice_total (tokens : List Int) (s e : Nat) :
    (e ≤ s → pySlice tokens s e = []) ∧
    (tokens.length ≤ e → pySlice tokens s e = tokens.drop s) ∧
    (pySlice tokens s e).length = min (e - s) (tokens.length - s) := by
  refine ⟨?_, ?_, ?_⟩
  · intro hes
    have : e - s = 0 := by omega
    simp [pySlice, this]
  · intro hle
    have hlen : (tokens.drop s).length ≤ e - s := by
      simp [List.length_drop]
      omega
    simp [pySlice, List.take_of_length_le hlen]
  · simp [pySlice, List.length_take, List.length_drop]

/-- Witness for C9 at a concrete input. -/
theorem pySlice_total_witness :
    pySlice [(5:Int)] 2 2 = [] ∧ pySlice [(5:Int)] 2 2 = ([(5:Int)]).drop 2 :=
  ⟨(pySlice_total [(5:Int)] 2 2).1 (by omega),
   (pySlice_total [(5:Int)] 2 2).2.1 (by simp)⟩

/-- C10: the inline Step 5/6 decoding and `answer_question` are equivalent —
same span and same selected answer tokens on all inputs. -/
theorem step56_equiv_answer_question (tokens : List Int)
    (start_scores end_scores : List ℚ) :
    step5_span start_scores end_scores
      = answer_question_span start_scores end_scores ∧
    step6_answer_tokens tokens start_scores end_scores
      = answer_question_tokens tokens start_scores end_scores := by
  have h1 : step5_span start_scores end_scores
      = answer_question_span start_scores end_scores := by
    unfold step5_span answer_question_span
    rw [torch_argmax_eq_np, torch_argmax_eq_np]
  refine ⟨h1, ?_⟩
  unfold step6_answer_tokens answer_question_tokens
  rw [h1]

end BertQA
